import Mathlib

/-!
Verification development for `neuralpp/symbolic/interval.py`: the
`ClosedInterval` / `DottedIntervals` data types and the bound-extraction
algorithm `from_constraints`.

The expression algebra (`expression.py`, `basic_expression.py`,
`z3_expression.py`) is an external collaborator whose sources are not part of
this repository snapshot; it is modelled here from the spec's Expression
Interface: expressions are integer constants, constants holding a relational
operator, variables, and binary function applications; `syntactic_eq` is
structural equality; `value` extracts the payload of a constant.

Python exceptions are modelled by `Except IntervalErr`; each `IntervalErr`
constructor stands for one of the raise sites (or the spec's abstract error
taxonomy name where the collaborator code is missing).
-/

set_option autoImplicit false

namespace NeuralppInterval

/-- Relational operators that can appear as the head constant of an atomic
relation (`operator.ge`, `operator.le`, `operator.gt`, `operator.lt` in the
source, plus `operator.eq` as a representative operator outside the supported
set). -/
inductive RelOp where
  | ge
  | le
  | gt
  | lt
  | eq
deriving DecidableEq, Repr

/-- Payload of a `Constant` expression: either an integer or an operator value
(Python constants can hold either). -/
inductive PVal where
  | int (n : Int)
  | op (o : RelOp)
deriving DecidableEq, Repr

/-- Modelled from the spec: the Expression Interface (`expression.py` is not
part of this snapshot).  `const n` is an integer `Constant`, `relOp o` a
`Constant` holding an operator value, `var s` a `Variable`, and
`funApp f a b` a binary `FunctionApplication` whose `subexpressions` are
`[f, a, b]`. -/
inductive Expr where
  | const (n : Int)
  | relOp (o : RelOp)
  | var (s : String)
  | funApp (f : Expr) (a : Expr) (b : Expr)
deriving DecidableEq, Repr

/-- Modelled from the spec: `syntactic_eq` is structural equality of
expression trees. -/
def Expr.syntactic_eq (e₁ e₂ : Expr) : Bool :=
  e₁ = e₂

/-- Modelled from the spec: `.value` succeeds exactly on `Constant`
expressions (accessing `.value` on anything else raises in Python). -/
def Expr.value : Expr → Option PVal
  | .const n => some (.int n)
  | .relOp o => some (.op o)
  | _ => none

/-- One constructor per raise site of the source (with the spec's abstract
error-taxonomy names where they exist):
`unsupportedConstraint` = the `ValueError` for a relation mentioning the index
variable on neither side; `unsupportedOperator` = the `ValueError` for an
operator outside the supported set; `valueAccessError` = accessing `.value` on
a non-constant (Python `AttributeError`/`TypeError`); `indexError` = the
`IndexError` raises; `notEnumerable` = the `TypeError` in `__iter__`;
`domainError` = the assertion in `to_context`; `notImplemented` =
`NotImplementedError("TODO")`. -/
inductive IntervalErr where
  | unsupportedConstraint
  | unsupportedOperator
  | valueAccessError
  | indexError
  | notEnumerable
  | domainError
  | notImplemented
deriving DecidableEq, Repr

/-- `ClosedInterval`: the inclusive range `[lower_bound, upper_bound]`; either
bound may still be unset (`None` in the source), hence `Option`. -/
structure ClosedInterval where
  lower_bound : Option Expr
  upper_bound : Option Expr
deriving DecidableEq, Repr

/-- `ClosedInterval.set`: positional rebuild — a fresh interval with the
selected bound replaced, the other carried over; out-of-range positions raise
`IndexError`.  (The embedding is pure, so the argument interval is a value and
cannot be mutated; this matches the source, which never assigns to the
original's fields.) -/
def ClosedInterval.set (ci : ClosedInterval) (i : Nat) (e : Expr) :
    Except IntervalErr ClosedInterval :=
  match i with
  | 0 => .ok ⟨some e, ci.upper_bound⟩
  | 1 => .ok ⟨ci.lower_bound, some e⟩
  | _ => .error .indexError

/-- Python `range(l, r)` over integers: `l, l+1, …, r−1`, empty when `r ≤ l`. -/
def intRange (l r : Int) : List Int :=
  (List.range (r - l).toNat).map (fun i => l + i)

/-- `ClosedInterval.__iter__`: when both bounds are integer `Constant`s the
source returns `range(l, r)`; otherwise it raises (`TypeError`, the spec's
`NotEnumerableError`).  Re-iteration is deterministic: the function is pure. -/
def ClosedInterval.iter (ci : ClosedInterval) : Except IntervalErr (List Int) :=
  match ci.lower_bound, ci.upper_bound with
  | some (.const l), some (.const r) => .ok (intRange l r)
  | _, _ => .error .notEnumerable

/-- `ClosedInterval.size = upper_bound − lower_bound + 1` (only meaningful when
both bounds are set; the source would raise on `None`). -/
def ClosedInterval.size (ci : ClosedInterval) : Except IntervalErr Int :=
  match ci.lower_bound, ci.upper_bound with
  | some (.const l), some (.const r) => .ok (r - l + 1)
  | _, _ => .error .valueAccessError

/-- The domain constraint `lower_bound ≤ index ≤ upper_bound` produced by
`to_context` (a `Context` value; the `Z3SolverExpression` class that realises
it is not part of this snapshot). -/
structure DomainConstraint where
  lower_bound : Option Expr
  index : Expr
  upper_bound : Option Expr
deriving DecidableEq, Repr

/-- Whether a finished interval is statically inverted: both bounds concrete
integers with `lower > upper`. -/
def ClosedInterval.isInverted (ci : ClosedInterval) : Bool :=
  match ci.lower_bound, ci.upper_bound with
  | some (.const l), some (.const u) => u < l
  | _, _ => false

/-- Modelled from the spec: `ClosedInterval.to_context` builds the constraint
`lower_bound ≤ index ≤ upper_bound` and asserts its satisfiability — the
source line delegates to `Z3SolverExpression` operator overloads that are not
part of this snapshot, so the spec's contract is used: fail with `DomainError`
exactly when both bounds are concrete and `lower > upper`, otherwise return the
chained domain constraint. -/
def ClosedInterval.to_context (ci : ClosedInterval) (index : Expr) :
    Except IntervalErr DomainConstraint :=
  if ci.isInverted then .error .domainError
  else .ok ⟨ci.lower_bound, index, ci.upper_bound⟩

/-- `DottedIntervals`: a `ClosedInterval` plus the ordered list of residual
exception expressions. -/
structure DottedIntervals where
  interval : ClosedInterval
  dots : List Expr
deriving DecidableEq, Repr

/-- `DottedIntervals.internal_object_eq` in the source is
`raise NotImplementedError("TODO")` — unconditionally, for every pair of
arguments. -/
def DottedIntervals.internal_object_eq (_d₁ _d₂ : DottedIntervals) :
    Except IntervalErr Bool :=
  .error .notImplemented

/-- Modelled from the spec (the comparison `bound >= closed_interval.lower_bound()`
resolves through operator overloads of the missing expression classes): the
lower-bound replacement test is numeric greater-or-equal when both operands are
integer constants; for symbolic operands the spec leaves it unspecified and the
overloaded comparison object is truthy, so the test passes. -/
def boundGe (bound current : Expr) : Bool :=
  match bound, current with
  | .const a, .const b => b ≤ a
  | _, _ => true

/-- Modelled from the spec: upper-bound counterpart of `boundGe` — numeric
lesser-or-equal on integer constants, truthy otherwise. -/
def boundLe (bound current : Expr) : Bool :=
  match bound, current with
  | .const a, .const b => a ≤ b
  | _, _ => true

/-- `_check_and_set_bounds` (source's leading underscore dropped — Lean does
not allow it): position 0 replaces the lower bound when it is unset or the
candidate passes the greater-or-equal test; position 1 is symmetric with
lesser-or-equal; other positions raise `IndexError`.  The exceptions list is
returned untouched on every path. -/
def check_and_set_bounds (i : Nat) (bound : Expr) (ci : ClosedInterval)
    (exceptions : List Expr) : Except IntervalErr (ClosedInterval × List Expr) :=
  match i with
  | 0 =>
    match ci.lower_bound with
    | none => (ci.set 0 bound).map (fun ci₂ => (ci₂, exceptions))
    | some cur =>
      if boundGe bound cur then (ci.set 0 bound).map (fun ci₂ => (ci₂, exceptions))
      else .ok (ci, exceptions)
  | 1 =>
    match ci.upper_bound with
    | none => (ci.set 1 bound).map (fun ci₂ => (ci₂, exceptions))
    | some cur =>
      if boundLe bound cur then (ci.set 1 bound).map (fun ci₂ => (ci₂, exceptions))
      else .ok (ci, exceptions)
  | _ => .error .indexError

/-- The operator-dispatch `match` of `_extract_bound_from_constraint`:
`vi` is the source's `variable_index` (1 when the index variable is the left
argument, 2 when it is the right one) and `bound` the opposing side.
`ge`/`le` tighten directly; `gt`/`lt` first rebuild the bound as
`Z3Expression.new_constant(bound.value ± 1)` (which requires an integer
constant — `.value` on anything else raises); any other head value raises
`ValueError` (the spec's `UnsupportedOperatorError`). -/
def extract_dispatch (pv : PVal) (vi : Nat) (bound : Expr) (ci : ClosedInterval)
    (exceptions : List Expr) : Except IntervalErr (ClosedInterval × List Expr) :=
  match pv with
  | .op .ge =>
    if vi = 1 then check_and_set_bounds 0 bound ci exceptions
    else check_and_set_bounds 1 bound ci exceptions
  | .op .le =>
    if vi = 1 then check_and_set_bounds 1 bound ci exceptions
    else check_and_set_bounds 0 bound ci exceptions
  | .op .gt =>
    if vi = 1 then
      match bound with
      | .const v => check_and_set_bounds 0 (.const (v + 1)) ci exceptions
      | _ => .error .valueAccessError
    else
      match bound with
      | .const v => check_and_set_bounds 1 (.const (v - 1)) ci exceptions
      | _ => .error .valueAccessError
  | .op .lt =>
    if vi = 1 then
      match bound with
      | .const v => check_and_set_bounds 1 (.const (v - 1)) ci exceptions
      | _ => .error .valueAccessError
    else
      match bound with
      | .const v => check_and_set_bounds 0 (.const (v + 1)) ci exceptions
      | _ => .error .valueAccessError
  | _ => .error .unsupportedOperator

/-- `_extract_bound_from_constraint` (leading underscore dropped): reads the
head constant's value (`subexpressions[0].value`), locates the index variable
by structural equality against `subexpressions[1]` then `subexpressions[2]`,
raising `ValueError` (the spec's `UnsupportedConstraintError`) when neither
side is the index, and dispatches on the operator. -/
def extract_bound_from_constraint (index : Expr) (constraint : Expr)
    (ci : ClosedInterval) (exceptions : List Expr) :
    Except IntervalErr (ClosedInterval × List Expr) :=
  match constraint with
  | .funApp f a b =>
    match f.value with
    | none => .error .valueAccessError
    | some pv =>
      if a.syntactic_eq index then extract_dispatch pv 1 b ci exceptions
      else if b.syntactic_eq index then extract_dispatch pv 2 a ci exceptions
      else .error .unsupportedConstraint
  | _ => .error .indexError

/-- Whether a child expression is a `FunctionApplication` (the `isinstance`
filter in `from_constraints`). -/
def Expr.isFunctionApplication : Expr → Bool
  | .funApp _ _ _ => true
  | _ => false

/-- The loop body of `from_constraints`: fold `extract_bound_from_constraint`
over the constraint's children, skipping every child that is not a
`FunctionApplication`; a raise inside the extractor aborts the whole fold. -/
def process_children (index : Expr) (children : List Expr) (ci : ClosedInterval)
    (exceptions : List Expr) : Except IntervalErr (ClosedInterval × List Expr) :=
  match children with
  | [] => .ok (ci, exceptions)
  | c :: rest =>
    if c.isFunctionApplication then
      match extract_bound_from_constraint index c ci exceptions with
      | .ok (ci₂, exceptions₂) => process_children index rest ci₂ exceptions₂
      | .error e => .error e
    else
      process_children index rest ci exceptions

/-- `from_constraints`: start from the fully-unset interval and the empty
exceptions list, fold over the constraint's subexpressions (a conjunction is
represented by its ordered list of children), and wrap the result as a
`DottedIntervals`. -/
def from_constraints (index : Expr) (children : List Expr) :
    Except IntervalErr DottedIntervals :=
  (process_children index children ⟨none, none⟩ []).map
    (fun p => ⟨p.1, p.2⟩)

/-- The index variable `x` used in the concrete scenarios. -/
def xVar : Expr := .var "x"

/-- The atomic relation `x ⋈ c` for an integer constant `c`. -/
def relC (o : RelOp) (n : Int) : Expr :=
  .funApp (.relOp o) xVar (.const n)

/-- The mirrored atomic relation `c ⋈ x`. -/
def relCFlip (o : RelOp) (n : Int) : Expr :=
  .funApp (.relOp o) (.const n) xVar

/-- C1: the extraction half of the claim holds — `from_constraints(x, x ≥ 0 ∧
x ≤ 2)` yields the interval `[0,2]` — but enumeration contradicts the claim:
the source's `__iter__` returns `range(l, r)`, so iterating `[0,2]` yields
`[0, 1]`, excluding the upper endpoint, while the class's own docstring
(`[lower_bound, upper_bound]`) and its `size` property (`2 − 0 + 1 = 3`
elements) say the interval is inclusive. -/
theorem claim_C1_code_eval :
    from_constraints xVar [relC .ge 0, relC .le 2] =
      .ok ⟨⟨some (.const 0), some (.const 2)⟩, []⟩ ∧
    ClosedInterval.iter ⟨some (.const 0), some (.const 2)⟩ = .ok [0, 1] ∧
    ClosedInterval.size ⟨some (.const 0), some (.const 2)⟩ = .ok 3 :=
  ⟨rfl, rfl, rfl⟩

/-- C2: for all integers `a`, `b`, extracting from `x > a ∧ x < b` produces
exactly the same result as extracting from `x ≥ a+1 ∧ x ≤ b−1` — namely the
interval `[a+1, b−1]` with no exceptions — and symmetrically the mirrored
forms `a < x ∧ b > x` produce the same result: a strict lower constraint
yields lower candidate `a+1`, a strict upper constraint yields upper candidate
`b−1`. -/
theorem claim_C2 : ∀ a b : Int,
    from_constraints xVar [relC .gt a, relC .lt b] =
      from_constraints xVar [relC .ge (a + 1), relC .le (b - 1)] ∧
    from_constraints xVar [relCFlip .lt a, relCFlip .gt b] =
      from_constraints xVar [relC .ge (a + 1), relC .le (b - 1)] ∧
    from_constraints xVar [relC .gt a, relC .lt b] =
      .ok ⟨⟨some (.const (a + 1)), some (.const (b - 1))⟩, []⟩ :=
  fun _ _ => ⟨rfl, rfl, rfl⟩

/-- C9: `ClosedInterval.set` at position 0 returns a new interval whose lower
bound is the new expression and whose upper bound is carried over from the
original unchanged; position 1 is symmetric.  The embedding is pure, so the
original interval is a value that cannot be mutated, matching the source's
rebuild-only update. -/
theorem claim_C9 : ∀ (ci : ClosedInterval) (e : Expr),
    ci.set 0 e = .ok ⟨some e, ci.upper_bound⟩ ∧
    ci.set 1 e = .ok ⟨ci.lower_bound, some e⟩ :=
  fun _ _ => ⟨rfl, rfl⟩

/-- C8: `DottedIntervals.internal_object_eq` does not compare the intervals
and then the dots lists position-wise — the source body is
`raise NotImplementedError("TODO")`, so every comparison, including one of a
`DottedIntervals` value with itself, raises instead of deciding equality. -/
theorem claim_C8_code_eval :
    DottedIntervals.internal_object_eq ⟨⟨some (.const 0), some (.const 2)⟩, []⟩
        ⟨⟨some (.const 0), some (.const 2)⟩, []⟩ = .error .notImplemented ∧
    ∀ d₁ d₂ : DottedIntervals,
      DottedIntervals.internal_object_eq d₁ d₂ = .error .notImplemented :=
  ⟨rfl, fun _ _ => rfl⟩

/-- C4: the code does not collect unreducible children into the dots list.  A
well-shaped atomic relation with an operator outside the supported set
(`x == 5`) makes extraction raise `ValueError` (modelled
`unsupportedOperator`) instead of appending the relation to the exceptions
list, and a non-relational child (`y`) is silently skipped, producing a
result with empty dots rather than dots `[y]`. -/
theorem claim_C4_code_eval :
    from_constraints xVar [relC .eq 5] = .error .unsupportedOperator ∧
    extract_bound_from_constraint xVar (relC .eq 5) ⟨none, none⟩ [] =
      .error .unsupportedOperator ∧
    from_constraints xVar [Expr.var "y"] = .ok ⟨⟨none, none⟩, []⟩ :=
  ⟨rfl, rfl, rfl⟩

/-- Helper: on every success path, `check_and_set_bounds` returns the
exceptions list it was given, untouched. -/
theorem check_and_set_bounds_preserves_exceptions (i : Nat) (bound : Expr)
    (ci : ClosedInterval) (excs : List Expr)
    (out : ClosedInterval × List Expr)
    (h : check_and_set_bounds i bound ci excs = .ok out) : out.2 = excs := by
  match i with
  | 0 =>
    rcases hlb : ci.lower_bound with _ | cur <;>
      simp [check_and_set_bounds, hlb, ClosedInterval.set, Except.map] at h
    · simp [← h]
    · rcases hge : boundGe bound cur <;> simp [hge] at h <;> simp [← h]
  | 1 =>
    rcases hub : ci.upper_bound with _ | cur <;>
      simp [check_and_set_bounds, hub, ClosedInterval.set, Except.map] at h
    · simp [← h]
    · rcases hle : boundLe bound cur <;> simp [hle] at h <;> simp [← h]
  | n + 2 => simp [check_and_set_bounds] at h

/-- Helper: on every success path, `extract_dispatch` returns the exceptions
list it was given, untouched. -/
theorem extract_dispatch_preserves_exceptions (pv : PVal) (vi : Nat)
    (bound : Expr) (ci : ClosedInterval) (excs : List Expr)
    (out : ClosedInterval × List Expr)
    (h : extract_dispatch pv vi bound ci excs = .ok out) : out.2 = excs := by
  rcases pv with n | o
  · simp [extract_dispatch] at h
  · cases o <;> simp [extract_dispatch] at h <;>
      split at h <;>
      first
        | exact check_and_set_bounds_preserves_exceptions _ _ _ _ _ h
        | (split at h <;>
            first
              | exact check_and_set_bounds_preserves_exceptions _ _ _ _ _ h
              | simp at h)

/-- Helper: on every success path, `extract_bound_from_constraint` returns the
exceptions list it was given, untouched. -/
theorem extract_bound_preserves_exceptions (index constraint : Expr)
    (ci : ClosedInterval) (excs : List Expr)
    (out : ClosedInterval × List Expr)
    (h : extract_bound_from_constraint index constraint ci excs = .ok out) :
    out.2 = excs := by
  rcases constraint with n | o | s | ⟨f, a, b⟩ <;>
    simp [extract_bound_from_constraint] at h
  rcases hv : f.value with _ | pv <;> simp [hv] at h
  split at h
  · exact extract_dispatch_preserves_exceptions _ _ _ _ _ _ h
  · split at h
    · exact extract_dispatch_preserves_exceptions _ _ _ _ _ _ h
    · simp at h

/-- Helper: on every success path, the fold over the constraint's children
returns the exceptions list it started from, untouched. -/
theorem process_children_preserves_exceptions (index : Expr)
    (children : List Expr) : ∀ (ci : ClosedInterval) (excs : List Expr)
    (out : ClosedInterval × List Expr),
    process_children index children ci excs = .ok out → out.2 = excs := by
  induction children with
  | nil =>
    intro ci excs out h
    simp [process_children] at h
    simp [← h]
  | cons c rest ih =>
    intro ci excs out h
    rcases hfa : c.isFunctionApplication <;>
      simp [process_children, hfa] at h
    · exact ih ci excs out h
    · rcases hex : extract_bound_from_constraint index c ci excs with e | p <;>
        rw [hex] at h
      · simp at h
      · have h₂ := extract_bound_preserves_exceptions index c ci excs p hex
        rw [← h₂]
        exact ih p.1 p.2 out h

/-- C10: whenever `from_constraints` returns normally, the result is one
`DottedIntervals` leaf whose dots list is empty — no execution path ever
appends to the exceptions list — and any child of the constraint that is not
a `FunctionApplication` is skipped by the fold, contributing neither to the
bounds nor to the dots. -/
theorem claim_C10 :
    (∀ (index : Expr) (children : List Expr) (d : DottedIntervals),
      from_constraints index children = .ok d → d.dots = []) ∧
    (∀ (index c : Expr) (rest : List Expr) (ci : ClosedInterval)
        (excs : List Expr), c.isFunctionApplication = false →
      process_children index (c :: rest) ci excs =
        process_children index rest ci excs) := by
  constructor
  · intro index children d h
    rcases hp : process_children index children ⟨none, none⟩ [] with e | p <;>
      simp [from_constraints, hp, Except.map] at h
    have h₂ := process_children_preserves_exceptions index children _ _ p hp
    rw [← h]
    exact h₂
  · intro index c rest ci excs h
    simp [process_children, h]

/-- C10 witness: a concrete successful extraction has empty dots, and a
concrete non-`FunctionApplication` child (`y`) is skipped. -/
theorem claim_C10_witness :
    (DottedIntervals.dots ⟨⟨some (.const 0), none⟩, []⟩) = [] ∧
    process_children xVar [Expr.var "y"] ⟨none, none⟩ [] =
      process_children xVar [] ⟨none, none⟩ [] :=
  ⟨claim_C10.1 xVar [relC .ge 0] ⟨⟨some (.const 0), none⟩, []⟩ rfl,
   claim_C10.2 xVar (.var "y") [] ⟨none, none⟩ [] rfl⟩

/-- C5: when neither argument of an atomic relation is structurally equal to
the index variable, `extract_bound_from_constraint` raises the shape error
(the spec's `UnsupportedConstraintError`), and the fold over the constraint's
children aborts with that same error — no partial result reaches the caller,
whatever interval state and exceptions had been accumulated and whatever
children remain. -/
theorem claim_C5 : ∀ (index : Expr) (o : RelOp) (a b : Expr)
    (ci : ClosedInterval) (excs rest : List Expr),
    a ≠ index → b ≠ index →
    extract_bound_from_constraint index (.funApp (.relOp o) a b) ci excs =
      .error .unsupportedConstraint ∧
    process_children index (.funApp (.relOp o) a b :: rest) ci excs =
      .error .unsupportedConstraint := by
  intro index o a b ci excs rest ha hb
  have h₁ : extract_bound_from_constraint index (.funApp (.relOp o) a b) ci
      excs = .error .unsupportedConstraint := by
    simp [extract_bound_from_constraint, Expr.value, Expr.syntactic_eq, ha, hb]
  exact ⟨h₁, by simp [process_children, Expr.isFunctionApplication, h₁]⟩

/-- C5 witness: the relation `1 ≥ y` mentions the index variable `x` on
neither side, so extraction fails with the shape error and the fold
surfaces it. -/
theorem claim_C5_witness :
    extract_bound_from_constraint xVar
        (.funApp (.relOp .ge) (.const 1) (.var "y")) ⟨none, none⟩ [] =
      .error .unsupportedConstraint ∧
    process_children xVar [.funApp (.relOp .ge) (.const 1) (.var "y")]
        ⟨none, none⟩ [] = .error .unsupportedConstraint :=
  claim_C5 xVar .ge (.const 1) (.var "y") ⟨none, none⟩ [] []
    (by decide) (by decide)

/-- C3: the tightening rule — a lower-bound candidate replaces the current
lower bound exactly when it is unset or the candidate is numerically
greater-or-equal (so a tie replaces, keeping the most recent bound), and
symmetrically the upper bound replaces exactly when unset or numerically
lesser-or-equal; consequently, processing a duplicated bound constraint
`x ≥ a ∧ x ≥ a` from any intermediate state yields the same result as
processing the single constraint, and in particular `from_constraints` gives
the same interval with or without the duplicate. -/
theorem claim_C3 :
    (∀ (a cur : Int) (u : Option Expr) (excs : List Expr), cur ≤ a →
      check_and_set_bounds 0 (.const a) ⟨some (.const cur), u⟩ excs =
        .ok (⟨some (.const a), u⟩, excs)) ∧
    (∀ (a cur : Int) (u : Option Expr) (excs : List Expr), a < cur →
      check_and_set_bounds 0 (.const a) ⟨some (.const cur), u⟩ excs =
        .ok (⟨some (.const cur), u⟩, excs)) ∧
    (∀ (a : Int) (u : Option Expr) (excs : List Expr),
      check_and_set_bounds 0 (.const a) ⟨none, u⟩ excs =
        .ok (⟨some (.const a), u⟩, excs)) ∧
    (∀ (a cur : Int) (l : Option Expr) (excs : List Expr), a ≤ cur →
      check_and_set_bounds 1 (.const a) ⟨l, some (.const cur)⟩ excs =
        .ok (⟨l, some (.const a)⟩, excs)) ∧
    (∀ (a cur : Int) (l : Option Expr) (excs : List Expr), cur < a →
      check_and_set_bounds 1 (.const a) ⟨l, some (.const cur)⟩ excs =
        .ok (⟨l, some (.const cur)⟩, excs)) ∧
    (∀ (a : Int) (l : Option Expr) (excs : List Expr),
      check_and_set_bounds 1 (.const a) ⟨l, none⟩ excs =
        .ok (⟨l, some (.const a)⟩, excs)) ∧
    (∀ (a : Int) (ci : ClosedInterval) (excs rest : List Expr),
      process_children xVar (relC .ge a :: relC .ge a :: rest) ci excs =
        process_children xVar (relC .ge a :: rest) ci excs) ∧
    (∀ a : Int, from_constraints xVar [relC .ge a, relC .ge a] =
      from_constraints xVar [relC .ge a]) := by
  have key : ∀ (a : Int) (ci : ClosedInterval) (excs rest : List Expr),
      process_children xVar (relC .ge a :: relC .ge a :: rest) ci excs =
        process_children xVar (relC .ge a :: rest) ci excs := by
    intro a ci excs rest
    have hself : boundGe (.const a) (.const a) = true := by simp [boundGe]
    rcases ci with ⟨lb, ub⟩
    rcases lb with _ | cur
    · simp [process_children, relC, xVar, Expr.isFunctionApplication,
        extract_bound_from_constraint, Expr.value, Expr.syntactic_eq,
        extract_dispatch, check_and_set_bounds, ClosedInterval.set,
        hself, Except.map]
    · by_cases hge : boundGe (.const a) cur = true
      · simp [process_children, relC, xVar, Expr.isFunctionApplication,
          extract_bound_from_constraint, Expr.value, Expr.syntactic_eq,
          extract_dispatch, check_and_set_bounds, ClosedInterval.set, hge,
          hself, Except.map]
      · simp [process_children, relC, xVar, Expr.isFunctionApplication,
          extract_bound_from_constraint, Expr.value, Expr.syntactic_eq,
          extract_dispatch, check_and_set_bounds, ClosedInterval.set, hge,
          Except.map]
  refine ⟨?_, ?_, ?_, ?_, ?_, ?_, key, ?_⟩
  · intro a cur u excs h
    simp [check_and_set_bounds, boundGe, ClosedInterval.set, Except.map, h]
  · intro a cur u excs h
    simp [check_and_set_bounds, boundGe, ClosedInterval.set, Except.map,
      h.not_le]
  · intro a u excs
    simp [check_and_set_bounds, ClosedInterval.set, Except.map]
  · intro a cur l excs h
    simp [check_and_set_bounds, boundLe, ClosedInterval.set, Except.map, h]
  · intro a cur l excs h
    simp [check_and_set_bounds, boundLe, ClosedInterval.set, Except.map,
      h.not_le]
  · intro a l excs
    simp [check_and_set_bounds, ClosedInterval.set, Except.map]
  · intro a
    unfold from_constraints
    rw [key]

/-- C3 witness: a looser candidate (2) does not replace the current lower
bound (3), a tighter one (5) does, and the duplicated constraint
`x ≥ 7 ∧ x ≥ 7` extracts to the same result as the single one. -/
theorem claim_C3_witness :
    check_and_set_bounds 0 (.const 5) ⟨some (.const 3), none⟩ [] =
      .ok (⟨some (.const 5), none⟩, []) ∧
    check_and_set_bounds 0 (.const 2) ⟨some (.const 3), none⟩ [] =
      .ok (⟨some (.const 3), none⟩, []) ∧
    from_constraints xVar [relC .ge 7, relC .ge 7] =
      from_constraints xVar [relC .ge 7] :=
  ⟨claim_C3.1 5 3 none [] (by decide),
   claim_C3.2.1 2 3 none [] (by decide),
   claim_C3.2.2.2.2.2.2.2 7⟩

/-- Helper: an interval is inverted exactly when both bounds are concrete
integer constants with the lower one numerically above the upper one. -/
theorem isInverted_iff (ci : ClosedInterval) :
    ci.isInverted = true ↔
      ∃ l u : Int, ci.lower_bound = some (.const l) ∧
        ci.upper_bound = some (.const u) ∧ u < l := by
  rcases ci with ⟨lb, ub⟩
  rcases lb with _ | e₁ <;> rcases ub with _ | e₂ <;>
    (try cases e₁) <;> (try cases e₂) <;>
    simp [ClosedInterval.isInverted]

/-- C6: `to_context` fails with the domain error exactly when both bounds are
concrete and the lower one exceeds the upper one, and otherwise returns the
domain constraint `lower_bound ≤ index ≤ upper_bound`; the inverted interval
`[5,3]` is produced by `from_constraints(x, x ≥ 5 ∧ x ≤ 3)` without any error
during extraction and is surfaced only by `to_context`. -/
theorem claim_C6 :
    (∀ (ci : ClosedInterval) (index : Expr),
      (ci.to_context index = .error .domainError ↔
        ∃ l u : Int, ci.lower_bound = some (.const l) ∧
          ci.upper_bound = some (.const u) ∧ u < l) ∧
      (ci.to_context index = .error .domainError ∨
        ci.to_context index = .ok ⟨ci.lower_bound, index, ci.upper_bound⟩)) ∧
    from_constraints xVar [relC .ge 5, relC .le 3] =
      .ok ⟨⟨some (.const 5), some (.const 3)⟩, []⟩ ∧
    ClosedInterval.to_context ⟨some (.const 5), some (.const 3)⟩ xVar =
      .error .domainError := by
  refine ⟨?_, rfl, rfl⟩
  intro ci index
  by_cases hinv : ci.isInverted = true
  · constructor
    · constructor
      · intro _
        exact (isInverted_iff ci).mp hinv
      · intro _
        simp [ClosedInterval.to_context, hinv]
    · left
      simp [ClosedInterval.to_context, hinv]
  · constructor
    · constructor
      · intro h
        simp [ClosedInterval.to_context, hinv] at h
      · intro hex
        exact absurd ((isInverted_iff ci).mpr hex) hinv
    · right
      simp [ClosedInterval.to_context, hinv]

/-- Helper: enumeration raises exactly when the two bounds are not both
concrete integer constants. -/
theorem iter_error_iff (ci : ClosedInterval) :
    ci.iter = .error .notEnumerable ↔
      ¬ ∃ l u : Int, ci.lower_bound = some (.const l) ∧
        ci.upper_bound = some (.const u) := by
  rcases ci with ⟨lb, ub⟩
  rcases lb with _ | e₁ <;> rcases ub with _ | e₂ <;>
    (try cases e₁) <;> (try cases e₂) <;>
    simp [ClosedInterval.iter]

/-- C7: enumeration succeeds exactly when both bounds are concrete integer
constants, raising the not-enumerable error otherwise; in the concrete
scenario `x ≥ n ∧ x ≤ 10` with symbolic `n`, extraction yields the interval
`[n, 10]`, its enumeration raises, and its `to_context` still succeeds with
the domain constraint `n ≤ x ≤ 10`. -/
theorem claim_C7 :
    (∀ ci : ClosedInterval,
      ci.iter = .error .notEnumerable ↔
        ¬ ∃ l u : Int, ci.lower_bound = some (.const l) ∧
          ci.upper_bound = some (.const u)) ∧
    from_constraints xVar [.funApp (.relOp .ge) xVar (.var "n"), relC .le 10] =
      .ok ⟨⟨some (.var "n"), some (.const 10)⟩, []⟩ ∧
    ClosedInterval.iter ⟨some (.var "n"), some (.const 10)⟩ =
      .error .notEnumerable ∧
    ClosedInterval.to_context ⟨some (.var "n"), some (.const 10)⟩ xVar =
      .ok ⟨some (.var "n"), xVar, some (.const 10)⟩ :=
  ⟨iter_error_iff, rfl, rfl, rfl⟩

end NeuralppInterval
